import Mathlib

/-!
Verification of the payments-webhook service core.

The definitions below are a shallow embedding of the repository's core:

* `src/routes/payments.ts` (second section): `PaymentRepository` with
  `getInvoiceById`, `insertPayment` (insert-or-ignore on the `event_id`
  primary key), `getTotalPaid`, `updateInvoiceStatus`;
* `src/routes/payments.ts` (third section): `withTx`, the transaction
  wrapper (`BEGIN`/`COMMIT`, `ROLLBACK` and rethrow on error);
* `src/server.ts` (second section): `PaymentService.handlePayment`;
* `src/queue/eventQueue.ts`: `EventQueue` (`enqueue`, `processNext`,
  `isEventProcessed`), modelled as a state machine whose steps are the
  atomic synchronous segments of the JavaScript event loop.

The database is modelled as lists of invoice and payment rows; SQL queries
become pure list operations.  Machine integers are `Int` (amounts fit in
`INTEGER` columns; no overflow behaviour is exercised by the code).
JavaScript truthiness of possibly-absent fields is modelled explicitly:
payload fields are `Option`-valued, `!x` on a string is `jsFalsy`, and
`x <= 0` on a possibly-`undefined` number is `jsLeqZero` (in JavaScript
`undefined <= 0` is `false` because the comparison goes through `NaN`).
-/

namespace PaymentsWebhook

/-- `InvoiceStatus` enum from `src/types/paymentTypes.ts` (second section):
`sent`, `partially_paid`, `paid`. -/
inductive InvoiceStatus where
  | sent
  | partiallyPaid
  | paid
deriving DecidableEq, Repr

/-- `PaymentType` enum from `src/types/paymentTypes.ts` (second section):
the single value `payment_received`. -/
inductive PaymentType where
  | paymentReceived
deriving DecidableEq, Repr

/-- A row of the `invoices` table (`InvoiceRecord` in
`src/routes/payments.ts`): id, total_cents, status.  Timestamps are not
modelled (no code reads them). -/
structure InvoiceRecord where
  id : String
  total_cents : Int
  status : InvoiceStatus
deriving DecidableEq, Repr

/-- A row of the `payments` table (`PaymentRecord` in
`src/routes/payments.ts`): event_id (primary key), invoice_id,
amount_cents, type. -/
structure PaymentRecord where
  event_id : String
  invoice_id : String
  amount_cents : Int
  type : PaymentType
deriving DecidableEq, Repr

/-- The database state: the `invoices` and `payments` tables, each as a
list of rows in insertion order. -/
structure DB where
  invoices : List InvoiceRecord
  payments : List PaymentRecord
deriving DecidableEq, Repr

/-- A payment payload as `handlePayment` receives it when called directly
(the spec requires the service to be safe to call directly, so fields may
be absent at run time; `none` models JavaScript `undefined`). -/
structure RawPayload where
  event_id : Option String
  invoice_id : Option String
  amount_cents : Option Int
deriving DecidableEq, Repr

/-- The object literals `handlePayment` returns:
`{ status: 200, message: 'Payment already processed' }` or
`{ status: 201, message: 'Payment processed' }`. -/
structure ServiceResult where
  status : Nat
  message : String
deriving DecidableEq, Repr

/-- The errors the service can throw: `BadRequestError` and
`NotFoundError` from `src/errors/customErrors.ts`, plus `storage` for an
error raised by the database driver itself (for example a NOT NULL
constraint violation on insert). -/
inductive PayError where
  | badRequest (msg : String)
  | notFound (msg : String)
  | storage
deriving DecidableEq, Repr

/-- `PaymentRepository.getInvoiceById`:
`SELECT id, total_cents, status FROM invoices WHERE id = $1 FOR UPDATE`,
returning `null` when no row matches.  The row lock is implicit in the
sequential model. -/
def getInvoiceById (db : DB) (invoiceId : String) : Option InvoiceRecord :=
  db.invoices.find? (fun v => v.id == invoiceId)

/-- `PaymentRepository.insertPayment`:
`INSERT INTO payments(...) VALUES (...) ON CONFLICT (event_id) DO NOTHING
RETURNING *`; returns the inserted row, or `null` when a row with the
same `event_id` already existed and the insert was ignored. -/
def insertPayment (db : DB) (pay : PaymentRecord) : DB × Option PaymentRecord :=
  if db.payments.any (fun q => q.event_id == pay.event_id) then (db, none)
  else ({ db with payments := db.payments ++ [pay] }, some pay)

/-- `PaymentRepository.getTotalPaid`:
`SELECT SUM(amount_cents) as total_paid FROM payments WHERE invoice_id = $1`,
with `Number(res.rows[0].total_paid || 0)` mapping an empty sum to 0. -/
def getTotalPaid (db : DB) (invoiceId : String) : Int :=
  ((db.payments.filter (fun q => q.invoice_id == invoiceId)).map
    (fun q => q.amount_cents)).sum

/-- `PaymentRepository.updateInvoiceStatus`:
`UPDATE invoices SET status = $1, updated_at = NOW() WHERE id = $2`. -/
def updateInvoiceStatus (db : DB) (invoiceId : String) (st : InvoiceStatus) : DB :=
  { db with
    invoices := db.invoices.map
      (fun v => if v.id == invoiceId then { v with status := st } else v) }

/-- `withTx` from `src/utils/tx.ts`: run the body inside
`BEGIN`/`COMMIT`; on a thrown error, `ROLLBACK` and rethrow.  The body is
modelled as a state transformer that also reports its outcome; rollback
discards the body's writes, so the observable state on error is the input
state. -/
def withTx {α : Type} (db : DB) (body : DB → DB × Except PayError α) :
    DB × Except PayError α :=
  match body db with
  | (db2, Except.ok a) => (db2, Except.ok a)
  | (_, Except.error e) => (db, Except.error e)

/-- JavaScript truthiness test `!x` for a string-valued field: true when
the field is absent (`undefined`) or the empty string. -/
def jsFalsy : Option String → Bool
  | none => true
  | some s => s == ""

/-- JavaScript comparison `x <= 0` for a possibly-absent number:
`undefined <= 0` is `false` (NaN comparison); a present number compares
normally. -/
def jsLeqZero : Option Int → Bool
  | none => false
  | some a => decide (a ≤ 0)

/-- The status derivation of `handlePayment` (`src/server.ts`, second
section, lines 70-72): start from `sent`, use `paid` when
`totalPaid >= invoice.total_cents`, else `partially_paid` when
`totalPaid > 0`. -/
def deriveStatus (totalPaid totalCents : Int) : InvoiceStatus :=
  if totalPaid ≥ totalCents then InvoiceStatus.paid
  else if totalPaid > 0 then InvoiceStatus.partiallyPaid
  else InvoiceStatus.sent

/-- The transaction body of `PaymentService.handlePayment`
(`src/server.ts`, second section, lines 52-77): look up the invoice (404
when absent), insert-or-ignore the payment keyed by `event_id`, on a
conflict return the already-processed result, otherwise recompute the
cumulative paid amount, derive and write the new status.  A payload whose
`amount_cents` is absent reaches the INSERT, which the database rejects
(`payments.amount_cents` is `NOT NULL` in
`src/db/migrations/schema.sql`); the thrown query error is `storage`. -/
def handlePaymentTx (p : RawPayload) (db : DB) : DB × Except PayError ServiceResult :=
  let iid := p.invoice_id.getD ""
  let eid := p.event_id.getD ""
  match getInvoiceById db iid with
  | none => (db, Except.error (PayError.notFound "Invoice not found"))
  | some invoice =>
    match p.amount_cents with
    | none => (db, Except.error PayError.storage)
    | some amt =>
      match insertPayment db
          { event_id := eid, invoice_id := iid, amount_cents := amt,
            type := PaymentType.paymentReceived } with
      | (db1, none) =>
        (db1, Except.ok { status := 200, message := "Payment already processed" })
      | (db1, some _) =>
        let totalPaid := getTotalPaid db1 iid
        let newStatus := deriveStatus totalPaid invoice.total_cents
        let db2 := updateInvoiceStatus db1 iid newStatus
        (db2, Except.ok { status := 201, message := "Payment processed" })

/-- `PaymentService.handlePayment` (`src/server.ts`, second section,
lines 46-78): the two validation checks
(`if (!invoice_id || !event_id) throw BadRequestError` and
`if (amount_cents <= 0) throw BadRequestError`) run before the
transaction; the rest runs inside `withTx`.  The returned `DB` is the
observable database state after the call (unchanged on any thrown
error, by rollback). -/
def handlePayment (p : RawPayload) (db : DB) : DB × Except PayError ServiceResult :=
  if jsFalsy p.invoice_id || jsFalsy p.event_id then
    (db, Except.error (PayError.badRequest "Missing required fields"))
  else if jsLeqZero p.amount_cents then
    (db, Except.error (PayError.badRequest "Amount must be positive"))
  else
    withTx db (handlePaymentTx p)

/-- Sequential application of a list of payloads through
`handlePayment`, threading the observable database state (a failed
application leaves the state unchanged, exactly as rollback does). -/
def applySeq (ps : List RawPayload) (db : DB) : DB :=
  ps.foldl (fun d p => (handlePayment p d).1) db

/-- A payload that satisfies the inbound interface: event id present and
non-empty, invoice id present and non-empty, amount present and strictly
positive. -/
def validPayload (p : RawPayload) : Bool :=
  !(jsFalsy p.event_id) && !(jsFalsy p.invoice_id) &&
    (match p.amount_cents with
     | none => false
     | some a => decide (0 < a))

/-- The number of payment rows carrying a given event identifier. -/
def countEventRows (db : DB) (eid : String) : Nat :=
  (db.payments.filter (fun q => q.event_id == eid)).length

/-- The status of the invoice a query for `iid` observes, when one
exists. -/
def invoiceStatusOf (db : DB) (iid : String) : Option InvoiceStatus :=
  (getInvoiceById db iid).map (fun v => v.status)

/-- Sum of the amounts of a list of payloads (absent amounts count 0;
valid payloads always carry an amount). -/
def sumAmounts (ps : List RawPayload) : Int :=
  (ps.map (fun p => p.amount_cents.getD 0)).sum

/-- Whether a service outcome is a validation error
(`BadRequestError`). -/
def isValidationError : Except PayError ServiceResult → Bool
  | Except.error (PayError.badRequest _) => true
  | _ => false

/-- `EventQueue.getEventId` (`src/queue/eventQueue.ts`, lines 25-29) at
the repository's instantiation `EventQueue<PaymentPayload>`
(`src/worker/paymentActor.ts`): `(event as any).event_id || 'unknown'`. -/
def getEventId (e : RawPayload) : String :=
  match e.event_id with
  | none => "unknown"
  | some s => if s == "" then "unknown" else s

/-- A ghost log entry: the handler invocation for an event began, or it
resolved (successfully or with a thrown error). -/
inductive QEntry where
  | start (e : RawPayload)
  | finish (e : RawPayload) (success : Bool)
deriving DecidableEq, Repr

/-- The state of one `EventQueue` instance (`src/queue/eventQueue.ts`):
the `queue` backlog, the `processing` re-entrancy flag and the
`processedEvents` set are the code's fields; `inflight`, `hist` and
`pushedList` are ghost state recording which handler invocation is
running, the chronological start/finish log of handler invocations, and
the backlog-append order. -/
structure QueueState where
  queue : List RawPayload
  processing : Bool
  processedEvents : List String
  inflight : Option RawPayload
  hist : List QEntry
  pushedList : List RawPayload
deriving DecidableEq, Repr

/-- A freshly constructed `EventQueue`: empty backlog, not processing,
empty processed-set. -/
def initQueue : QueueState :=
  { queue := [], processing := false, processedEvents := [],
    inflight := none, hist := [], pushedList := [] }

/-- The synchronous prefix of `EventQueue.processNext`
(`src/queue/eventQueue.ts`, lines 31-39): return if already processing or
the backlog is empty; otherwise set the re-entrancy flag, shift the
oldest backlog entry and begin its handler invocation (which then runs
until it resolves). -/
def startNext (s : QueueState) : QueueState :=
  if s.processing then s
  else
    match s.queue with
    | [] => s
    | e :: rest =>
      { s with
        queue := rest, processing := true, inflight := some e,
        hist := s.hist ++ [QEntry.start e] }

/-- `EventQueue.enqueue` (`src/queue/eventQueue.ts`, lines 13-23): drop
the event when its identifier is in the processed-set; otherwise push it
onto the backlog and call `processNext` (whose guard makes it a no-op
when a handler is already in flight). -/
def enqueue (s : QueueState) (e : RawPayload) : QueueState :=
  if s.processedEvents.contains (getEventId e) then s
  else
    startNext
      { s with queue := s.queue ++ [e], pushedList := s.pushedList ++ [e] }

/-- The resumption of `EventQueue.processNext` when the awaited handler
invocation resolves (`src/queue/eventQueue.ts`, lines 38-53): on success
add the event's identifier to the processed-set, on failure log and do
not; in the `finally` block clear the re-entrancy flag and, when the
backlog is non-empty, start the next cycle.  A thrown handler error is
caught here and never propagates further. -/
def complete (s : QueueState) (success : Bool) : QueueState :=
  match s.inflight with
  | none => s
  | some e =>
    let processed :=
      if success && !(s.processedEvents.contains (getEventId e)) then
        s.processedEvents ++ [getEventId e]
      else s.processedEvents
    startNext
      { s with
        processing := false, inflight := none, processedEvents := processed,
        hist := s.hist ++ [QEntry.finish e success] }

/-- An atomic step of the queue's event-loop interleaving: an `enqueue`
call (from some request handler) or the resolution of the in-flight
handler invocation. -/
inductive QOp where
  | enq (e : RawPayload)
  | done (success : Bool)
deriving DecidableEq, Repr

/-- One interleaving step. -/
def stepQ (s : QueueState) : QOp → QueueState
  | QOp.enq e => enqueue s e
  | QOp.done r => complete s r

/-- The queue state after a sequence of interleaving steps from a fresh
queue. -/
def runOps (ops : List QOp) : QueueState :=
  ops.foldl stepQ initQueue

/-- The events whose handler invocations began, in chronological
order. -/
def startsOf : List QEntry → List RawPayload
  | [] => []
  | QEntry.start e :: t => e :: startsOf t
  | QEntry.finish _ _ :: t => startsOf t

/-- Replay a start/finish log: from a given in-flight event, check that
starts happen only when nothing is in flight and that each finish
matches the event that started, returning the in-flight event at the
end (`none` result: the log is inconsistent). -/
def histRun : Option RawPayload → List QEntry → Option (Option RawPayload)
  | cur, [] => some cur
  | none, QEntry.start e :: t => histRun (some e) t
  | some e, QEntry.finish e2 _ :: t => if e = e2 then histRun none t else none
  | some _, QEntry.start _ :: _ => none
  | none, QEntry.finish _ _ :: _ => none

/-- Position of a status along the progression `sent` →
`partially_paid` → `paid`. -/
def statusRank : InvoiceStatus → Nat
  | InvoiceStatus.sent => 0
  | InvoiceStatus.partiallyPaid => 1
  | InvoiceStatus.paid => 2

/-- The rank of the status the first invoice row with the given id
carries (0 when no such row exists). -/
def invStatusRank (db : DB) (iid : String) : Nat :=
  match getInvoiceById db iid with
  | some v => statusRank v.status
  | none => 0

/-- The spec's §3 invariant for one invoice: the stored status is the
pure function of the cumulative paid amount against the total owed. -/
def Consistent (db : DB) (iid : String) : Prop :=
  ∃ inv, getInvoiceById db iid = some inv ∧
    inv.status = deriveStatus (getTotalPaid db iid) inv.total_cents

/-- The combined invariant of the queue's drain loop: the handler log is
consistent and ends with exactly the in-flight invocation open, the
started events followed by the backlog reproduce the append order, and
the re-entrancy flag is set exactly while an invocation is in
flight. -/
def QInv (s : QueueState) : Prop :=
  histRun none s.hist = some s.inflight ∧
  startsOf s.hist ++ s.queue = s.pushedList ∧
  s.processing = s.inflight.isSome

theorem withTx_ok {α : Type} (db db2 : DB) (body : DB → DB × Except PayError α)
    (a : α) (h : body db = (db2, Except.ok a)) :
    withTx db body = (db2, Except.ok a) := by
  unfold withTx
  rw [h]

theorem withTx_error {α : Type} (db : DB) (body : DB → DB × Except PayError α)
    (db2 : DB) (e : PayError) (h : body db = (db2, Except.error e)) :
    withTx db body = (db, Except.error e) := by
  unfold withTx
  rw [h]

theorem find_update_eq (l : List InvoiceRecord) (iid : String) (st : InvoiceStatus)
    (inv : InvoiceRecord)
    (h : l.find? (fun v => v.id == iid) = some inv) :
    (l.map (fun v => if v.id == iid then { v with status := st } else v)).find?
      (fun v => v.id == iid) = some { inv with status := st } := by
  induction l with
  | nil => simp at h
  | cons a t ih =>
    by_cases ha : a.id = iid
    · rw [List.find?_cons_of_pos _ (by simpa using ha)] at h
      have hinv : a = inv := Option.some.inj h
      simp only [List.map_cons, if_pos (show (a.id == iid) = true by simpa using ha)]
      rw [List.find?_cons_of_pos _ (by simpa using ha), hinv]
    · rw [List.find?_cons_of_neg _ (by simpa using ha)] at h
      simp only [List.map_cons, if_neg (show ¬((a.id == iid) = true) by simpa using ha)]
      rw [List.find?_cons_of_neg _ (by simpa using ha)]
      exact ih h

theorem find_update_ne (l : List InvoiceRecord) (jid iid : String) (st : InvoiceStatus)
    (hne : iid ≠ jid) :
    (l.map (fun v => if v.id == jid then { v with status := st } else v)).find?
      (fun v => v.id == iid) = l.find? (fun v => v.id == iid) := by
  induction l with
  | nil => rfl
  | cons a t ih =>
    by_cases hj : a.id = jid
    · have hni : ¬(a.id = iid) := by
        rw [hj]
        exact fun hc => hne hc.symm
      simp only [List.map_cons, if_pos (show (a.id == jid) = true by simpa using hj)]
      rw [List.find?_cons_of_neg _ (by simpa using hni),
        List.find?_cons_of_neg _ (by simpa using hni)]
      exact ih
    · simp only [List.map_cons, if_neg (show ¬((a.id == jid) = true) by simpa using hj)]
      by_cases hi : a.id = iid
      · rw [List.find?_cons_of_pos _ (by simpa using hi),
          List.find?_cons_of_pos _ (by simpa using hi)]
      · rw [List.find?_cons_of_neg _ (by simpa using hi),
          List.find?_cons_of_neg _ (by simpa using hi)]
        exact ih

theorem getInvoiceById_update_self (db : DB) (iid : String) (st : InvoiceStatus)
    (inv : InvoiceRecord) (h : getInvoiceById db iid = some inv) :
    getInvoiceById (updateInvoiceStatus db iid st) iid = some { inv with status := st } :=
  find_update_eq db.invoices iid st inv h

theorem getInvoiceById_update_other (db : DB) (jid iid : String) (st : InvoiceStatus)
    (hne : iid ≠ jid) :
    getInvoiceById (updateInvoiceStatus db jid st) iid = getInvoiceById db iid :=
  find_update_ne db.invoices jid iid st hne

theorem getTotalPaid_update (db : DB) (jid iid : String) (st : InvoiceStatus) :
    getTotalPaid (updateInvoiceStatus db jid st) iid = getTotalPaid db iid := rfl

theorem payments_update (db : DB) (jid : String) (st : InvoiceStatus) :
    (updateInvoiceStatus db jid st).payments = db.payments := rfl

theorem getInvoiceById_addPayment (db : DB) (pay : PaymentRecord) (iid : String) :
    getInvoiceById { db with payments := db.payments ++ [pay] } iid =
      getInvoiceById db iid := rfl

theorem getTotalPaid_append (db : DB) (pay : PaymentRecord) (iid : String) :
    getTotalPaid { db with payments := db.payments ++ [pay] } iid =
      getTotalPaid db iid + (if pay.invoice_id = iid then pay.amount_cents else 0) := by
  unfold getTotalPaid
  simp only [List.filter_append, List.map_append, List.sum_append]
  by_cases h : pay.invoice_id = iid
  · simp [h]
  · simp [h]

theorem insertPayment_fresh (db : DB) (pay : PaymentRecord)
    (h : ∀ q ∈ db.payments, q.event_id ≠ pay.event_id) :
    insertPayment db pay = ({ db with payments := db.payments ++ [pay] }, some pay) := by
  unfold insertPayment
  rw [if_neg]
  simp only [List.any_eq_true, beq_iff_eq, not_exists]
  intro q
  intro hc
  exact absurd hc.2 (h q hc.1)

theorem insertPayment_dup (db : DB) (pay : PaymentRecord) (q : PaymentRecord)
    (hq : q ∈ db.payments) (he : q.event_id = pay.event_id) :
    insertPayment db pay = (db, none) := by
  unfold insertPayment
  rw [if_pos]
  simp only [List.any_eq_true, beq_iff_eq]
  exact ⟨q, hq, he⟩

theorem handlePayment_eq_tx (p : RawPayload) (db : DB)
    (h1 : jsFalsy p.invoice_id = false) (h2 : jsFalsy p.event_id = false)
    (h3 : jsLeqZero p.amount_cents = false) :
    handlePayment p db = withTx db (handlePaymentTx p) := by
  unfold handlePayment
  rw [h1, h2, h3]
  rfl

theorem handlePaymentTx_fresh (eid iid : String) (a : Int) (db : DB)
    (inv : InvoiceRecord)
    (hinv : getInvoiceById db iid = some inv)
    (hfresh : ∀ q ∈ db.payments, q.event_id ≠ eid) :
    handlePaymentTx { event_id := some eid, invoice_id := some iid, amount_cents := some a } db =
      (updateInvoiceStatus
         { db with payments := db.payments ++
             [{ event_id := eid, invoice_id := iid, amount_cents := a,
                type := PaymentType.paymentReceived }] } iid
         (deriveStatus (getTotalPaid db iid + a) inv.total_cents),
       Except.ok { status := 201, message := "Payment processed" }) := by
  have hins := insertPayment_fresh db
    { event_id := eid, invoice_id := iid, amount_cents := a,
      type := PaymentType.paymentReceived } (by intro q hq; exact hfresh q hq)
  have htp : getTotalPaid
      { db with payments := db.payments ++
          [{ event_id := eid, invoice_id := iid, amount_cents := a,
             type := PaymentType.paymentReceived }] } iid = getTotalPaid db iid + a := by
    rw [getTotalPaid_append]
    simp
  unfold handlePaymentTx
  simp only [Option.getD_some, hinv, hins, htp]

theorem handlePayment_fresh (eid iid : String) (a : Int) (db : DB)
    (inv : InvoiceRecord)
    (heid : eid ≠ "") (hiid : iid ≠ "") (ha : 0 < a)
    (hinv : getInvoiceById db iid = some inv)
    (hfresh : ∀ q ∈ db.payments, q.event_id ≠ eid) :
    handlePayment { event_id := some eid, invoice_id := some iid, amount_cents := some a } db =
      (updateInvoiceStatus
         { db with payments := db.payments ++
             [{ event_id := eid, invoice_id := iid, amount_cents := a,
                type := PaymentType.paymentReceived }] } iid
         (deriveStatus (getTotalPaid db iid + a) inv.total_cents),
       Except.ok { status := 201, message := "Payment processed" }) := by
  rw [handlePayment_eq_tx _ _ (by simpa [jsFalsy] using hiid)
    (by simpa [jsFalsy] using heid) (by simp [jsLeqZero]; omega)]
  exact withTx_ok _ _ _ _ (handlePaymentTx_fresh eid iid a db inv hinv hfresh)

theorem handlePayment_duplicate (eid iid : String) (a : Int) (db : DB)
    (inv : InvoiceRecord) (q : PaymentRecord)
    (heid : eid ≠ "") (hiid : iid ≠ "") (ha : 0 < a)
    (hinv : getInvoiceById db iid = some inv)
    (hq : q ∈ db.payments) (he : q.event_id = eid) :
    handlePayment { event_id := some eid, invoice_id := some iid, amount_cents := some a } db =
      (db, Except.ok { status := 200, message := "Payment already processed" }) := by
  rw [handlePayment_eq_tx _ _ (by simpa [jsFalsy] using hiid)
    (by simpa [jsFalsy] using heid) (by simp [jsLeqZero]; omega)]
  refine withTx_ok _ _ _ _ ?_
  have hins := insertPayment_dup db
    { event_id := eid, invoice_id := iid, amount_cents := a,
      type := PaymentType.paymentReceived } q hq he
  unfold handlePaymentTx
  simp only [Option.getD_some, hinv, hins]

theorem handlePayment_notFound (p : RawPayload) (db : DB)
    (h1 : jsFalsy p.invoice_id = false) (h2 : jsFalsy p.event_id = false)
    (h3 : jsLeqZero p.amount_cents = false)
    (hinv : getInvoiceById db (p.invoice_id.getD "") = none) :
    handlePayment p db = (db, Except.error (PayError.notFound "Invoice not found")) := by
  rw [handlePayment_eq_tx _ _ h1 h2 h3]
  refine withTx_error _ _ db _ ?_
  unfold handlePaymentTx
  simp only [hinv]

theorem handlePayment_error_fst (p : RawPayload) (db : DB) (e : PayError)
    (h : (handlePayment p db).2 = Except.error e) : (handlePayment p db).1 = db := by
  by_cases h1 : jsFalsy p.invoice_id = true
  · simp [handlePayment, h1]
  · by_cases h2 : jsFalsy p.event_id = true
    · simp [handlePayment, h1, h2]
    · by_cases h3 : jsLeqZero p.amount_cents = true
      · simp [handlePayment, h1, h2, h3]
      · rw [handlePayment_eq_tx p db (by simpa using h1) (by simpa using h2)
          (by simpa using h3)] at h ⊢
        unfold withTx at h ⊢
        rcases hb : handlePaymentTx p db with ⟨db2, r⟩
        cases r with
        | ok a =>
          rw [hb] at h
          exact Except.noConfusion h
        | error e2 => rfl

theorem validPayload_elim (p : RawPayload) (hv : validPayload p = true) :
    ∃ eid iid a, p.event_id = some eid ∧ eid ≠ "" ∧ p.invoice_id = some iid ∧
      iid ≠ "" ∧ p.amount_cents = some a ∧ 0 < a := by
  rcases p with ⟨eo, io, ao⟩
  cases eo with
  | none => simp [validPayload, jsFalsy] at hv
  | some eid =>
    cases io with
    | none => simp [validPayload, jsFalsy] at hv
    | some iid =>
      cases ao with
      | none => simp [validPayload] at hv
      | some a =>
        simp only [validPayload, jsFalsy, Bool.and_eq_true, Bool.not_eq_true',
          beq_eq_false_iff_ne, ne_eq, decide_eq_true_eq] at hv
        exact ⟨eid, iid, a, rfl, hv.1.1, rfl, hv.1.2, rfl, hv.2⟩

theorem handlePayment_badRequest_missing (p : RawPayload) (db : DB)
    (h : (jsFalsy p.invoice_id || jsFalsy p.event_id) = true) :
    handlePayment p db =
      (db, Except.error (PayError.badRequest "Missing required fields")) := by
  unfold handlePayment
  rw [h]
  rfl

theorem handlePayment_badRequest_amount (p : RawPayload) (db : DB)
    (h1 : jsFalsy p.invoice_id = false) (h2 : jsFalsy p.event_id = false)
    (h3 : jsLeqZero p.amount_cents = true) :
    handlePayment p db =
      (db, Except.error (PayError.badRequest "Amount must be positive")) := by
  unfold handlePayment
  rw [h1, h2, h3]
  rfl

theorem handlePayment_storage_noAmount (p : RawPayload) (db : DB)
    (inv : InvoiceRecord)
    (h1 : jsFalsy p.invoice_id = false) (h2 : jsFalsy p.event_id = false)
    (hno : p.amount_cents = none)
    (hinv : getInvoiceById db (p.invoice_id.getD "") = some inv) :
    handlePayment p db = (db, Except.error PayError.storage) := by
  rw [handlePayment_eq_tx p db h1 h2 (by rw [hno]; rfl)]
  refine withTx_error _ _ db _ ?_
  unfold handlePaymentTx
  simp only [hinv, hno]

theorem deriveStatus_ne_sent (c t : Int) (hc : 0 < c) :
    deriveStatus c t ≠ InvoiceStatus.sent := by
  unfold deriveStatus
  by_cases h1 : c ≥ t
  · simp [h1]
  · simp [h1, hc]

theorem getTotalPaid_nonneg (db : DB) (iid : String)
    (hpos : ∀ q ∈ db.payments, 0 < q.amount_cents) : 0 ≤ getTotalPaid db iid := by
  unfold getTotalPaid
  apply List.sum_nonneg
  intro x hx
  simp only [List.mem_map, List.mem_filter] at hx
  obtain ⟨q, ⟨hq, _⟩, rfl⟩ := hx
  exact le_of_lt (hpos q hq)

/-- C3: a valid payload whose invoice id matches no invoice row makes
`handlePayment` fail with the not-found error and leave the observable
database untouched (no payment row created, no invoice mutated); and on
any error whatsoever the transaction rolls back, so the observable state
always equals the input state and the error propagates. -/
theorem claim_C3 (p : RawPayload) (db : DB) :
    (validPayload p = true → getInvoiceById db (p.invoice_id.getD "") = none →
       handlePayment p db = (db, Except.error (PayError.notFound "Invoice not found"))) ∧
    (∀ e, (handlePayment p db).2 = Except.error e → (handlePayment p db).1 = db) := by
  constructor
  · intro hv hnone
    obtain ⟨eid, iid, a, he, hene, hi, hine, ha, hapos⟩ := validPayload_elim p hv
    refine handlePayment_notFound p db ?_ ?_ ?_ hnone
    · rw [hi]
      simpa [jsFalsy] using hine
    · rw [he]
      simpa [jsFalsy] using hene
    · rw [ha]
      simp [jsLeqZero]
      omega
  · intro e h
    exact handlePayment_error_fst p db e h

/-- C3 witness: at a concrete valid payload and a database with no
invoices, the call fails not-found and the state is unchanged. -/
theorem claim_C3_witness :
    handlePayment
        { event_id := some "evt-1", invoice_id := some "inv-1", amount_cents := some 100 }
        { invoices := [], payments := [] } =
      ({ invoices := [], payments := [] },
       Except.error (PayError.notFound "Invoice not found")) :=
  (claim_C3 { event_id := some "evt-1", invoice_id := some "inv-1", amount_cents := some 100 }
    { invoices := [], payments := [] }).1 (by decide) (by decide)

/-- C6 (amended): a payload whose `event_id` or `invoice_id` is missing
or empty fails with the missing-fields validation error before any
transactional work, and a payload whose `amount_cents` is present and
not strictly positive fails with the amount validation error before any
transactional work; a payload whose `amount_cents` is missing, however,
passes both validation checks (JavaScript `undefined <= 0` is false) and
fails only inside the transaction, with a not-found or storage error
rather than a validation error. -/
theorem claim_C6 (p : RawPayload) (db : DB) :
    ((jsFalsy p.invoice_id || jsFalsy p.event_id) = true →
       handlePayment p db =
         (db, Except.error (PayError.badRequest "Missing required fields"))) ∧
    (jsFalsy p.invoice_id = false → jsFalsy p.event_id = false →
       ∀ a, p.amount_cents = some a → a ≤ 0 →
         handlePayment p db =
           (db, Except.error (PayError.badRequest "Amount must be positive"))) ∧
    (jsFalsy p.invoice_id = false → jsFalsy p.event_id = false →
       p.amount_cents = none →
         handlePayment p db =
           (db, Except.error
             (match getInvoiceById db (p.invoice_id.getD "") with
              | none => PayError.notFound "Invoice not found"
              | some _ => PayError.storage))) := by
  refine ⟨fun h => handlePayment_badRequest_missing p db h, ?_, ?_⟩
  · intro h1 h2 a ha hle
    refine handlePayment_badRequest_amount p db h1 h2 ?_
    rw [ha]
    simp [jsLeqZero, hle]
  · intro h1 h2 hno
    cases hq : getInvoiceById db (p.invoice_id.getD "") with
    | none => exact handlePayment_notFound p db h1 h2 (by rw [hno]; rfl) hq
    | some inv => exact handlePayment_storage_noAmount p db inv h1 h2 hno hq

/-- C6 witness: a concrete payload with a missing `event_id` is rejected
with the missing-fields validation error, state untouched. -/
theorem claim_C6_witness :
    handlePayment { event_id := none, invoice_id := some "inv-1", amount_cents := some 100 }
        { invoices := [], payments := [] } =
      ({ invoices := [], payments := [] },
       Except.error (PayError.badRequest "Missing required fields")) :=
  (claim_C6 { event_id := none, invoice_id := some "inv-1", amount_cents := some 100 }
    { invoices := [], payments := [] }).1 (by decide)

/-- C6 counterexample: a payload missing its structurally required
`amount_cents`, against a database where the referenced invoice exists,
is not rejected by validation: `handlePayment` enters the transaction
and fails there with a storage error (the insert violates the
`NOT NULL` constraint), so the claim that every payload with a missing
required field fails with a validation error before transactional work
is false. -/
theorem claim_C6_cex :
    (handlePayment { event_id := some "evt-1", invoice_id := some "inv-1", amount_cents := none }
        { invoices := [{ id := "inv-1", total_cents := 5000, status := InvoiceStatus.sent }],
          payments := [] }).2 = Except.error PayError.storage ∧
    isValidationError
      (handlePayment { event_id := some "evt-1", invoice_id := some "inv-1", amount_cents := none }
        { invoices := [{ id := "inv-1", total_cents := 5000, status := InvoiceStatus.sent }],
          payments := [] }).2 = false :=
  ⟨rfl, rfl⟩

/-- C9: whenever `handlePayment` takes the non-duplicate insert path
(result 201) on a database whose payment rows all have positive amounts
(the schema's CHECK constraint), the status it writes is never `sent`:
the recomputed cumulative amount includes the just-inserted positive
payment, so it is strictly positive. -/
theorem claim_C9 (p : RawPayload) (db db2 : DB) (r : ServiceResult)
    (hpos : ∀ q ∈ db.payments, 0 < q.amount_cents)
    (h : handlePayment p db = (db2, Except.ok r)) (h201 : r.status = 201) :
    ∃ v, getInvoiceById db2 (p.invoice_id.getD "") = some v ∧
      v.status ≠ InvoiceStatus.sent := by
  obtain ⟨eo, io, ao⟩ := p
  by_cases h1 : (jsFalsy io || jsFalsy eo) = true
  · rw [handlePayment_badRequest_missing _ db h1] at h
    exact absurd (congrArg Prod.snd h) (by simp)
  · simp only [Bool.or_eq_true, not_or, Bool.not_eq_true] at h1
    obtain ⟨hio, heo⟩ := h1
    cases hei : eo with
    | none => rw [hei] at heo; simp [jsFalsy] at heo
    | some eid =>
    cases hii : io with
    | none => rw [hii] at hio; simp [jsFalsy] at hio
    | some iid =>
    subst hei
    subst hii
    have hene : eid ≠ "" := by simpa [jsFalsy] using heo
    have hine : iid ≠ "" := by simpa [jsFalsy] using hio
    cases hai : ao with
    | none =>
      subst hai
      cases hq : getInvoiceById db iid with
      | none =>
        rw [handlePayment_notFound
          { event_id := some eid, invoice_id := some iid, amount_cents := none }
          db hio heo rfl (by simpa using hq)] at h
        exact absurd (congrArg Prod.snd h) (by simp)
      | some inv =>
        rw [handlePayment_storage_noAmount
          { event_id := some eid, invoice_id := some iid, amount_cents := none }
          db inv hio heo rfl (by simpa using hq)] at h
        exact absurd (congrArg Prod.snd h) (by simp)
    | some a =>
      subst hai
      by_cases h3 : jsLeqZero (some a) = true
      · rw [handlePayment_badRequest_amount _ db hio heo h3] at h
        exact absurd (congrArg Prod.snd h) (by simp)
      · have ha : 0 < a := by
          simp [jsLeqZero] at h3
          omega
        cases hq : getInvoiceById db iid with
        | none =>
          rw [handlePayment_notFound
            { event_id := some eid, invoice_id := some iid, amount_cents := some a }
            db hio heo (by simp [jsLeqZero]; omega) (by simpa using hq)] at h
          exact absurd (congrArg Prod.snd h) (by simp)
        | some inv =>
          by_cases hdup : db.payments.any (fun q => q.event_id == eid) = true
          · obtain ⟨q, hqmem, hqe⟩ := List.any_eq_true.mp hdup
            rw [handlePayment_duplicate eid iid a db inv q hene hine ha hq hqmem
              (by simpa using hqe)] at h
            have hr : ({ status := 200, message := "Payment already processed" } :
                ServiceResult) = r := by
              have := congrArg Prod.snd h
              simpa using this
            rw [← hr] at h201
            simp at h201
          · have hfresh : ∀ q ∈ db.payments, q.event_id ≠ eid := by
              intro q hqmem hc
              exact hdup (List.any_eq_true.mpr ⟨q, hqmem, by simpa using hc⟩)
            rw [handlePayment_fresh eid iid a db inv hene hine ha hq hfresh] at h
            have hdb2 : db2 = updateInvoiceStatus
                { db with payments := db.payments ++
                    [{ event_id := eid, invoice_id := iid, amount_cents := a,
                       type := PaymentType.paymentReceived }] } iid
                (deriveStatus (getTotalPaid db iid + a) inv.total_cents) :=
              (congrArg Prod.fst h).symm
            refine ⟨{ inv with
              status := deriveStatus (getTotalPaid db iid + a) inv.total_cents }, ?_, ?_⟩
            · rw [hdb2]
              simp only [Option.getD_some]
              exact getInvoiceById_update_self _ iid _ inv hq
            · exact deriveStatus_ne_sent _ _
                (by have := getTotalPaid_nonneg db iid hpos; omega)

/-- C9 witness: concrete fresh payment of 100 against a 5000-cent
invoice in status `sent` yields a 201 result and a written status that
is not `sent`. -/
theorem claim_C9_witness :
    ∃ v, getInvoiceById
        { invoices := [{ id := "inv-1", total_cents := 5000,
                         status := InvoiceStatus.partiallyPaid }],
          payments := [{ event_id := "evt-1", invoice_id := "inv-1", amount_cents := 100,
                         type := PaymentType.paymentReceived }] } "inv-1" = some v ∧
      v.status ≠ InvoiceStatus.sent := by
  have h := claim_C9
    { event_id := some "evt-1", invoice_id := some "inv-1", amount_cents := some 100 }
    { invoices := [{ id := "inv-1", total_cents := 5000, status := InvoiceStatus.sent }],
      payments := [] }
    { invoices := [{ id := "inv-1", total_cents := 5000,
                     status := InvoiceStatus.partiallyPaid }],
      payments := [{ event_id := "evt-1", invoice_id := "inv-1", amount_cents := 100,
                     type := PaymentType.paymentReceived }] }
    { status := 201, message := "Payment processed" }
    (by intro q hq; simp at hq) rfl rfl
  simpa using h

/-- C1: applying a valid payload with a fresh event identifier and then
applying the very same payload again (sequentially) leaves exactly one
payment row for that identifier and exactly one status recomputation:
the first application returns 201 and writes the derived status once;
the second application commits as a no-op, returning the
already-processed 200 outcome with the database unchanged. -/
theorem claim_C1 (p : RawPayload) (db : DB) (inv : InvoiceRecord)
    (hv : validPayload p = true)
    (hinv : getInvoiceById db (p.invoice_id.getD "") = some inv)
    (hfresh : ∀ q ∈ db.payments, q.event_id ≠ p.event_id.getD "") :
    ∃ db1,
      handlePayment p db =
        (db1, Except.ok { status := 201, message := "Payment processed" }) ∧
      handlePayment p db1 =
        (db1, Except.ok { status := 200, message := "Payment already processed" }) ∧
      countEventRows db1 (p.event_id.getD "") = 1 ∧
      invoiceStatusOf db1 (p.invoice_id.getD "") =
        some (deriveStatus
          (getTotalPaid db (p.invoice_id.getD "") + p.amount_cents.getD 0)
          inv.total_cents) := by
  obtain ⟨eo, io, ao⟩ := p
  obtain ⟨eid, iid, a, he, hene, hi, hine, ha, hapos⟩ :=
    validPayload_elim { event_id := eo, invoice_id := io, amount_cents := ao } hv
  simp only at he hi ha
  subst he
  subst hi
  subst ha
  simp only [Option.getD_some] at hinv hfresh ⊢
  have hfresh2 : ∀ q ∈ db.payments, q.event_id ≠ eid := hfresh
  refine ⟨_, handlePayment_fresh eid iid a db inv hene hine hapos hinv hfresh2, ?_, ?_, ?_⟩
  · -- second application: the inserted row makes the insert a conflict
    set pay : PaymentRecord :=
      { event_id := eid, invoice_id := iid, amount_cents := a,
        type := PaymentType.paymentReceived } with hpay
    set st := deriveStatus (getTotalPaid db iid + a) inv.total_cents with hst
    set db1 := updateInvoiceStatus { db with payments := db.payments ++ [pay] } iid st
      with hdb1
    have hfind : getInvoiceById db1 iid = some { inv with status := st } :=
      getInvoiceById_update_self { db with payments := db.payments ++ [pay] } iid st inv hinv
    have hmem : pay ∈ db1.payments := by
      have : db1.payments = db.payments ++ [pay] := rfl
      rw [this]
      exact List.mem_append_right _ (List.mem_singleton_self pay)
    exact handlePayment_duplicate eid iid a db1 { inv with status := st } pay
      hene hine hapos hfind hmem rfl
  · unfold countEventRows
    have hpm : (updateInvoiceStatus
        { db with payments := db.payments ++
            [{ event_id := eid, invoice_id := iid, amount_cents := a,
               type := PaymentType.paymentReceived }] } iid
        (deriveStatus (getTotalPaid db iid + a) inv.total_cents)).payments =
        db.payments ++
          [{ event_id := eid, invoice_id := iid, amount_cents := a,
             type := PaymentType.paymentReceived }] := rfl
    rw [hpm, List.filter_append]
    have hnil : db.payments.filter (fun q => q.event_id == eid) = [] := by
      rw [List.filter_eq_nil_iff]
      intro q hq
      simpa using hfresh2 q hq
    rw [hnil]
    simp
  · unfold invoiceStatusOf
    rw [getInvoiceById_update_self { db with payments := db.payments ++
        [{ event_id := eid, invoice_id := iid, amount_cents := a,
           type := PaymentType.paymentReceived }] } iid _ inv hinv]
    rfl

/-- C1 witness: a concrete 3000-cent payment against a 5000-cent
invoice, applied twice with the same event id. -/
theorem claim_C1_witness :
    ∃ db1,
      handlePayment
          { event_id := some "evt-1", invoice_id := some "inv-1", amount_cents := some 3000 }
          { invoices := [{ id := "inv-1", total_cents := 5000, status := InvoiceStatus.sent }],
            payments := [] } =
        (db1, Except.ok { status := 201, message := "Payment processed" }) ∧
      handlePayment
          { event_id := some "evt-1", invoice_id := some "inv-1", amount_cents := some 3000 }
          db1 =
        (db1, Except.ok { status := 200, message := "Payment already processed" }) ∧
      countEventRows db1 "evt-1" = 1 ∧
      invoiceStatusOf db1 "inv-1" = some InvoiceStatus.partiallyPaid := by
  have h := claim_C1
    { event_id := some "evt-1", invoice_id := some "inv-1", amount_cents := some 3000 }
    { invoices := [{ id := "inv-1", total_cents := 5000, status := InvoiceStatus.sent }],
      payments := [] }
    { id := "inv-1", total_cents := 5000, status := InvoiceStatus.sent }
    (by decide) rfl (by intro q hq; simp at hq)
  simpa using h

theorem applySeq_append (l1 l2 : List RawPayload) (db : DB) :
    applySeq (l1 ++ l2) db = applySeq l2 (applySeq l1 db) := by
  unfold applySeq
  exact List.foldl_append _ _ l1 l2

theorem sumAmounts_cons (p : RawPayload) (ps : List RawPayload) :
    sumAmounts (p :: ps) = p.amount_cents.getD 0 + sumAmounts ps := by
  simp [sumAmounts]

theorem applySeq_fresh (iid : String) (ps : List RawPayload) :
    ∀ (db : DB) (inv : InvoiceRecord),
      getInvoiceById db iid = some inv →
      (∀ p ∈ ps, validPayload p = true ∧ p.invoice_id = some iid) →
      (ps.map (fun p => p.event_id.getD "")).Nodup →
      (∀ p ∈ ps, ∀ q ∈ db.payments, q.event_id ≠ p.event_id.getD "") →
      getInvoiceById (applySeq ps db) iid =
        some (if ps.isEmpty then inv
              else { inv with
                status := deriveStatus (getTotalPaid db iid + sumAmounts ps)
                  inv.total_cents }) := by
  induction ps with
  | nil =>
    intro db inv hinv _ _ _
    simpa [applySeq] using hinv
  | cons p t ih =>
    intro db inv hinv hv hnd hfresh
    obtain ⟨hvp, hpid⟩ := hv p (List.mem_cons_self p t)
    obtain ⟨eo, io, ao⟩ := p
    obtain ⟨eid, iid2, a, he, hene, hi, hine, ha, hapos⟩ :=
      validPayload_elim { event_id := eo, invoice_id := io, amount_cents := ao } hvp
    simp only at he hi ha hpid
    subst he
    subst hi
    subst ha
    have hiid2 : iid = iid2 := (Option.some.inj hpid).symm
    subst hiid2
    have hfreshp : ∀ q ∈ db.payments, q.event_id ≠ eid := by
      intro q hq
      simpa using hfresh _ (List.mem_cons_self _ t) q hq
    have hstep := handlePayment_fresh eid iid a db inv hene hine hapos hinv hfreshp
    have happ : applySeq
        ({ event_id := some eid, invoice_id := some iid, amount_cents := some a } :: t) db =
        applySeq t (handlePayment
          { event_id := some eid, invoice_id := some iid, amount_cents := some a } db).1 := rfl
    rw [happ, hstep]
    set pay : PaymentRecord :=
      { event_id := eid, invoice_id := iid, amount_cents := a,
        type := PaymentType.paymentReceived } with hpayd
    set ext : DB := { db with payments := db.payments ++ [pay] } with hextd
    set st1 := deriveStatus (getTotalPaid db iid + a) inv.total_cents with hst1
    set db2 := updateInvoiceStatus ext iid st1 with hdb2
    have hinv2 : getInvoiceById db2 iid = some { inv with status := st1 } :=
      getInvoiceById_update_self ext iid st1 inv hinv
    have hnd2 : (t.map (fun p => p.event_id.getD "")).Nodup := by
      simp only [List.map_cons, List.nodup_cons] at hnd
      exact hnd.2
    have heidnot : eid ∉ t.map (fun p => p.event_id.getD "") := by
      simp only [List.map_cons, List.nodup_cons] at hnd
      simpa using hnd.1
    have hfresh2 : ∀ p ∈ t, ∀ q ∈ db2.payments, q.event_id ≠ p.event_id.getD "" := by
      intro p2 hp2 q hq
      have hq2 : q ∈ db.payments ++ [pay] := hq
      rcases List.mem_append.mp hq2 with hq3 | hq3
      · exact hfresh p2 (List.mem_cons_of_mem _ hp2) q hq3
      · have hqpay : q = pay := List.mem_singleton.mp hq3
        rw [hqpay]
        intro hc
        exact heidnot (by
          rw [List.mem_map]
          exact ⟨p2, hp2, hc.symm⟩)
    have hv2 : ∀ p ∈ t, validPayload p = true ∧ p.invoice_id = some iid := by
      intro p2 hp2
      exact hv p2 (List.mem_cons_of_mem _ hp2)
    have htp2 : getTotalPaid db2 iid = getTotalPaid db iid + a := by
      rw [hdb2, getTotalPaid_update, hextd, getTotalPaid_append]
      simp [hpayd]
    have hIH := ih db2 { inv with status := st1 } hinv2 hv2 hnd2 hfresh2
    rw [hIH]
    cases t with
    | nil =>
      simp [sumAmounts, hst1]
    | cons q u =>
      simp only [List.isEmpty_cons, Bool.false_eq_true, if_false]
      rw [htp2, sumAmounts_cons]
      simp [sumAmounts, add_assoc]

theorem deriveStatus_iff (c t : Int) :
    (deriveStatus c t = InvoiceStatus.paid ↔ t ≤ c) ∧
    (deriveStatus c t = InvoiceStatus.partiallyPaid ↔ 0 < c ∧ c < t) ∧
    (deriveStatus c t = InvoiceStatus.sent ↔ c ≤ 0 ∧ c < t) := by
  unfold deriveStatus
  by_cases h1 : c ≥ t <;> by_cases h2 : c > 0 <;>
    simp [h1, h2] <;> omega

/-- C2: for an invoice and any non-empty sequence of valid payments with
pairwise-distinct, fresh event identifiers all targeting it, the final
stored status is `paid` iff the cumulative paid amount reaches
`total_cents`, `partially_paid` iff the cumulative amount is strictly
between 0 and `total_cents`, and `sent` otherwise; and the final lookup
result is the same for every permutation of the sequence (order
independence). -/
theorem claim_C2 (db : DB) (iid : String) (inv : InvoiceRecord) (ps : List RawPayload)
    (hinv : getInvoiceById db iid = some inv)
    (hv : ∀ p ∈ ps, validPayload p = true ∧ p.invoice_id = some iid)
    (hnd : (ps.map (fun p => p.event_id.getD "")).Nodup)
    (hfresh : ∀ p ∈ ps, ∀ q ∈ db.payments, q.event_id ≠ p.event_id.getD "")
    (hne : ps ≠ []) :
    (∃ inv2, getInvoiceById (applySeq ps db) iid = some inv2 ∧
       (inv2.status = InvoiceStatus.paid ↔
          inv.total_cents ≤ getTotalPaid db iid + sumAmounts ps) ∧
       (inv2.status = InvoiceStatus.partiallyPaid ↔
          0 < getTotalPaid db iid + sumAmounts ps ∧
            getTotalPaid db iid + sumAmounts ps < inv.total_cents) ∧
       (inv2.status = InvoiceStatus.sent ↔
          getTotalPaid db iid + sumAmounts ps ≤ 0 ∧
            getTotalPaid db iid + sumAmounts ps < inv.total_cents)) ∧
    (∀ qs, List.Perm qs ps →
       getInvoiceById (applySeq qs db) iid = getInvoiceById (applySeq ps db) iid) := by
  have hmain := applySeq_fresh iid ps db inv hinv hv hnd hfresh
  have hps : ps.isEmpty = false := by
    cases ps with
    | nil => exact absurd rfl hne
    | cons q u => rfl
  rw [hps] at hmain
  simp only [Bool.false_eq_true, if_false] at hmain
  constructor
  · refine ⟨_, hmain, ?_, ?_, ?_⟩
    · exact (deriveStatus_iff _ _).1
    · exact (deriveStatus_iff _ _).2.1
    · exact (deriveStatus_iff _ _).2.2
  · intro qs hperm
    have hvq : ∀ p ∈ qs, validPayload p = true ∧ p.invoice_id = some iid := by
      intro p hp
      exact hv p (hperm.mem_iff.mp hp)
    have hndq : (qs.map (fun p => p.event_id.getD "")).Nodup :=
      ((hperm.map (fun p => p.event_id.getD "")).nodup_iff).mpr hnd
    have hfreshq : ∀ p ∈ qs, ∀ q ∈ db.payments, q.event_id ≠ p.event_id.getD "" := by
      intro p hp
      exact hfresh p (hperm.mem_iff.mp hp)
    have hqs : qs.isEmpty = false := by
      cases hqe : qs with
      | nil =>
        rw [hqe] at hperm
        exact absurd hperm.nil_eq.symm hne
      | cons q u => rfl
    have hmainq := applySeq_fresh iid qs db inv hinv hvq hndq hfreshq
    rw [hqs] at hmainq
    simp only [Bool.false_eq_true, if_false] at hmainq
    have hsum : sumAmounts qs = sumAmounts ps :=
      List.Perm.sum_eq (hperm.map (fun p => p.amount_cents.getD 0))
    rw [hmainq, hmain, hsum]

/-- C2 witness: payments of 3000 then 2000 against a 5000-cent invoice
end in status `paid`. -/
theorem claim_C2_witness :
    invoiceStatusOf
      (applySeq
        [{ event_id := some "evt-1", invoice_id := some "inv-1", amount_cents := some 3000 },
         { event_id := some "evt-2", invoice_id := some "inv-1", amount_cents := some 2000 }]
        { invoices := [{ id := "inv-1", total_cents := 5000, status := InvoiceStatus.sent }],
          payments := [] }) "inv-1" = some InvoiceStatus.paid := by
  obtain ⟨inv2, hfind, hpaid, _, _⟩ := (claim_C2
    { invoices := [{ id := "inv-1", total_cents := 5000, status := InvoiceStatus.sent }],
      payments := [] }
    "inv-1"
    { id := "inv-1", total_cents := 5000, status := InvoiceStatus.sent }
    [{ event_id := some "evt-1", invoice_id := some "inv-1", amount_cents := some 3000 },
     { event_id := some "evt-2", invoice_id := some "inv-1", amount_cents := some 2000 }]
    rfl
    (by intro p hp; fin_cases hp <;> exact ⟨by decide, rfl⟩)
    (by decide)
    (by intro p hp q hq; simp at hq)
    (by simp)).1
  have hst : inv2.status = InvoiceStatus.paid := hpaid.mpr (by decide)
  unfold invoiceStatusOf
  rw [hfind]
  simp [hst]

theorem deriveStatus_rank_mono (c c2 t : Int) (h : c ≤ c2) :
    statusRank (deriveStatus c t) ≤ statusRank (deriveStatus c2 t) := by
  unfold deriveStatus
  by_cases h1 : c ≥ t <;> by_cases h2 : c2 ≥ t <;>
    by_cases h3 : c > 0 <;> by_cases h4 : c2 > 0 <;>
    simp [h1, h2, h3, h4, statusRank] <;> omega

theorem handlePayment_consistent_mono (p : RawPayload) (db : DB) (iid : String)
    (h : Consistent db iid) :
    Consistent (handlePayment p db).1 iid ∧
      invStatusRank db iid ≤ invStatusRank (handlePayment p db).1 iid := by
  obtain ⟨inv, hinv, hcons⟩ := h
  obtain ⟨eo, io, ao⟩ := p
  by_cases h1 : (jsFalsy io || jsFalsy eo) = true
  · rw [handlePayment_badRequest_missing
      { event_id := eo, invoice_id := io, amount_cents := ao } db h1]
    exact ⟨⟨inv, hinv, hcons⟩, le_refl _⟩
  · simp only [Bool.or_eq_true, not_or, Bool.not_eq_true] at h1
    obtain ⟨hio, heo⟩ := h1
    cases hei : eo with
    | none => rw [hei] at heo; simp [jsFalsy] at heo
    | some eid =>
    cases hii : io with
    | none => rw [hii] at hio; simp [jsFalsy] at hio
    | some iid2 =>
    subst hei
    subst hii
    have hene : eid ≠ "" := by simpa [jsFalsy] using heo
    have hine : iid2 ≠ "" := by simpa [jsFalsy] using hio
    cases hai : ao with
    | none =>
      subst hai
      cases hq : getInvoiceById db iid2 with
      | none =>
        rw [handlePayment_notFound
          { event_id := some eid, invoice_id := some iid2, amount_cents := none }
          db hio heo rfl (by simpa using hq)]
        exact ⟨⟨inv, hinv, hcons⟩, le_refl _⟩
      | some invJ =>
        rw [handlePayment_storage_noAmount
          { event_id := some eid, invoice_id := some iid2, amount_cents := none }
          db invJ hio heo rfl (by simpa using hq)]
        exact ⟨⟨inv, hinv, hcons⟩, le_refl _⟩
    | some a =>
      subst hai
      by_cases h3 : jsLeqZero (some a) = true
      · rw [handlePayment_badRequest_amount
          { event_id := some eid, invoice_id := some iid2, amount_cents := some a }
          db hio heo h3]
        exact ⟨⟨inv, hinv, hcons⟩, le_refl _⟩
      · have ha : 0 < a := by
          simp [jsLeqZero] at h3
          omega
        cases hq : getInvoiceById db iid2 with
        | none =>
          rw [handlePayment_notFound
            { event_id := some eid, invoice_id := some iid2, amount_cents := some a }
            db hio heo (by simp [jsLeqZero]; omega) (by simpa using hq)]
          exact ⟨⟨inv, hinv, hcons⟩, le_refl _⟩
        | some invJ =>
          by_cases hdup : db.payments.any (fun q => q.event_id == eid) = true
          · obtain ⟨q, hqmem, hqe⟩ := List.any_eq_true.mp hdup
            rw [handlePayment_duplicate eid iid2 a db invJ q hene hine ha hq hqmem
              (by simpa using hqe)]
            exact ⟨⟨inv, hinv, hcons⟩, le_refl _⟩
          · have hfresh : ∀ q ∈ db.payments, q.event_id ≠ eid := by
              intro q hqmem hc
              exact hdup (List.any_eq_true.mpr ⟨q, hqmem, by simpa using hc⟩)
            rw [handlePayment_fresh eid iid2 a db invJ hene hine ha hq hfresh]
            set pay : PaymentRecord :=
              { event_id := eid, invoice_id := iid2, amount_cents := a,
                type := PaymentType.paymentReceived } with hpayd
            set ext : DB := { db with payments := db.payments ++ [pay] } with hextd
            set st1 := deriveStatus (getTotalPaid db iid2 + a) invJ.total_cents with hst1
            by_cases hii : iid2 = iid
            · subst hii
              have hinvJ : invJ = inv := Option.some.inj (hq.symm.trans hinv)
              subst hinvJ
              have hfind : getInvoiceById (updateInvoiceStatus ext iid2 st1) iid2 =
                  some { invJ with status := st1 } :=
                getInvoiceById_update_self ext iid2 st1 invJ hinv
              have htp : getTotalPaid (updateInvoiceStatus ext iid2 st1) iid2 =
                  getTotalPaid db iid2 + a := by
                rw [getTotalPaid_update, hextd, getTotalPaid_append]
                simp [hpayd]
              constructor
              · refine ⟨{ invJ with status := st1 }, hfind, ?_⟩
                rw [htp]
              · unfold invStatusRank
                rw [hinv, hfind]
                simp only
                rw [hcons, hst1]
                exact deriveStatus_rank_mono _ _ _ (by omega)
            · have hfind : getInvoiceById (updateInvoiceStatus ext iid2 st1) iid =
                  getInvoiceById db iid := by
                rw [getInvoiceById_update_other ext iid2 iid st1 (fun hc => hii hc.symm)]
                rfl
              have htp : getTotalPaid (updateInvoiceStatus ext iid2 st1) iid =
                  getTotalPaid db iid := by
                rw [getTotalPaid_update, hextd, getTotalPaid_append]
                simp [hpayd, hii]
              constructor
              · refine ⟨inv, by rw [hfind]; exact hinv, ?_⟩
                rw [htp]
                exact hcons
              · unfold invStatusRank
                rw [hinv, hfind, hinv]

theorem applySeq_consistent_mono (iid : String) (qs : List RawPayload) :
    ∀ db : DB, Consistent db iid →
      Consistent (applySeq qs db) iid ∧
        invStatusRank db iid ≤ invStatusRank (applySeq qs db) iid := by
  induction qs with
  | nil =>
    intro db h
    exact ⟨h, le_refl _⟩
  | cons p t ih =>
    intro db h
    obtain ⟨hc1, hr1⟩ := handlePayment_consistent_mono p db iid h
    obtain ⟨hc2, hr2⟩ := ih (handlePayment p db).1 hc1
    exact ⟨hc2, le_trans hr1 hr2⟩

/-- C5: starting from an invoice whose stored status is consistent with
its cumulative paid amount, the rank of the stored status along any
sequence of `handlePayment` applications is monotone: for any two
prefixes of the sequence, the later state's status rank along
`sent` → `partially_paid` → `paid` is at least the earlier one's, so a
written `paid` never reverts to `partially_paid` or `sent`. -/
theorem claim_C5 (db : DB) (iid : String) (ps : List RawPayload) (inv : InvoiceRecord)
    (hinv : getInvoiceById db iid = some inv)
    (hcons : inv.status = deriveStatus (getTotalPaid db iid) inv.total_cents)
    (i j : Nat) (hij : i ≤ j) :
    invStatusRank (applySeq (ps.take i) db) iid ≤
      invStatusRank (applySeq (ps.take j) db) iid := by
  have hC : Consistent db iid := ⟨inv, hinv, hcons⟩
  obtain ⟨hCi, _⟩ := applySeq_consistent_mono iid (ps.take i) db hC
  have hj : j = i + (j - i) := by omega
  rw [hj, List.take_add, applySeq_append]
  exact (applySeq_consistent_mono iid ((ps.drop i).take (j - i)) _ hCi).2

/-- C5 witness: one 3000-cent payment against a consistent 5000-cent
invoice in status `sent`; the rank after the payment is at least the
rank before. -/
theorem claim_C5_witness :
    invStatusRank
        (applySeq
          ([{ event_id := some "evt-1", invoice_id := some "inv-1",
              amount_cents := some 3000 }].take 0)
          { invoices := [{ id := "inv-1", total_cents := 5000, status := InvoiceStatus.sent }],
            payments := [] }) "inv-1" ≤
      invStatusRank
        (applySeq
          ([{ event_id := some "evt-1", invoice_id := some "inv-1",
              amount_cents := some 3000 }].take 1)
          { invoices := [{ id := "inv-1", total_cents := 5000, status := InvoiceStatus.sent }],
            payments := [] }) "inv-1" :=
  claim_C5
    { invoices := [{ id := "inv-1", total_cents := 5000, status := InvoiceStatus.sent }],
      payments := [] }
    "inv-1"
    [{ event_id := some "evt-1", invoice_id := some "inv-1", amount_cents := some 3000 }]
    { id := "inv-1", total_cents := 5000, status := InvoiceStatus.sent }
    rfl rfl 0 1 (by omega)

theorem histRun_append (h1 h2 : List QEntry) :
    ∀ c, histRun c (h1 ++ h2) = (histRun c h1).bind (fun c2 => histRun c2 h2) := by
  induction h1 with
  | nil =>
    intro c
    simp [histRun]
  | cons a t ih =>
    intro c
    cases a with
    | start e =>
      cases c with
      | none => simpa [histRun] using ih (some e)
      | some e0 => simp [histRun]
    | finish e2 r =>
      cases c with
      | none => simp [histRun]
      | some e0 =>
        by_cases he : e0 = e2
        · simpa [histRun, he] using ih none
        · simp [histRun, he]

theorem startsOf_append (h1 h2 : List QEntry) :
    startsOf (h1 ++ h2) = startsOf h1 ++ startsOf h2 := by
  induction h1 with
  | nil => rfl
  | cons a t ih =>
    cases a with
    | start e => simp [startsOf, ih]
    | finish e r => simp [startsOf, ih]

theorem startNext_inv (s : QueueState) (h : QInv s) : QInv (startNext s) := by
  obtain ⟨hh, hq, hp⟩ := h
  unfold startNext
  by_cases hproc : s.processing = true
  · rw [if_pos hproc]
    exact ⟨hh, hq, hp⟩
  · rw [if_neg hproc]
    have hinf : s.inflight = none := by
      cases hx : s.inflight with
      | none => rfl
      | some e =>
        rw [hx] at hp
        simp at hp
        exact absurd hp hproc
    cases hqq : s.queue with
    | nil => exact ⟨hh, hq, hp⟩
    | cons e rest =>
      refine ⟨?_, ?_, rfl⟩
      · rw [histRun_append]
        rw [hh, hinf]
        simp [histRun]
      · rw [startsOf_append]
        simp only [startsOf]
        rw [hqq] at hq
        simpa using hq

theorem enqueue_inv (s : QueueState) (e : RawPayload) (h : QInv s) :
    QInv (enqueue s e) := by
  unfold enqueue
  by_cases hdup : s.processedEvents.contains (getEventId e) = true
  · rw [if_pos hdup]
    exact h
  · rw [if_neg hdup]
    apply startNext_inv
    obtain ⟨hh, hq, hp⟩ := h
    refine ⟨hh, ?_, hp⟩
    simp only
    rw [← List.append_assoc, hq]

theorem complete_inv (s : QueueState) (r : Bool) (h : QInv s) :
    QInv (complete s r) := by
  obtain ⟨hh, hq, hp⟩ := h
  unfold complete
  cases hx : s.inflight with
  | none => exact ⟨by rw [hh, hx], hq, hp⟩
  | some e =>
    apply startNext_inv
    refine ⟨?_, ?_, by simp⟩
    · simp only
      rw [histRun_append, hh, hx]
      simp [histRun]
    · simp only
      rw [startsOf_append, hq.symm]
      simp [startsOf]

theorem stepQ_inv (s : QueueState) (op : QOp) (h : QInv s) : QInv (stepQ s op) := by
  cases op with
  | enq e => exact enqueue_inv s e h
  | done r => exact complete_inv s r h

theorem foldl_stepQ_inv (ops : List QOp) :
    ∀ s : QueueState, QInv s → QInv (ops.foldl stepQ s) := by
  induction ops with
  | nil =>
    intro s h
    exact h
  | cons op t ih =>
    intro s h
    exact ih (stepQ s op) (stepQ_inv s op h)

/-- C4: in every state reachable by any interleaving of `enqueue` calls
and handler resolutions from a fresh `EventQueue`, the handler log is
strictly alternating with matching events (each invocation fully
completes before the next begins, and at most one is in flight: the
re-entrancy flag is set exactly while one is open), and the started
events followed by the current backlog equal the backlog-append order,
so handler invocations happen in strict FIFO enqueue order. -/
theorem claim_C4 (ops : List QOp) :
    histRun none (runOps ops).hist = some (runOps ops).inflight ∧
    startsOf (runOps ops).hist ++ (runOps ops).queue = (runOps ops).pushedList ∧
    (runOps ops).processing = (runOps ops).inflight.isSome :=
  foldl_stepQ_inv ops initQueue ⟨rfl, rfl, rfl⟩

/-- C7: `enqueue` of an event whose identifier is in the processed-set
is a no-op (the state, including backlog and ghost logs, is unchanged);
`enqueue` of any other event appends it to the backlog-append order, and
either leaves it queued behind the in-flight handler (busy queue) or
starts it at once (idle queue with empty backlog). -/
theorem claim_C7 (s : QueueState) (e : RawPayload) :
    (s.processedEvents.contains (getEventId e) = true → enqueue s e = s) ∧
    (s.processedEvents.contains (getEventId e) = false →
       (enqueue s e).pushedList = s.pushedList ++ [e] ∧
       (s.processing = true →
          (enqueue s e).queue = s.queue ++ [e] ∧ (enqueue s e).hist = s.hist) ∧
       (s.processing = false → s.queue = [] →
          (enqueue s e).inflight = some e ∧ (enqueue s e).processing = true ∧
            (enqueue s e).queue = [] ∧
            (enqueue s e).hist = s.hist ++ [QEntry.start e])) := by
  constructor
  · intro hdup
    unfold enqueue
    rw [if_pos hdup]
  · intro hdup
    unfold enqueue startNext
    rw [if_neg (by rw [hdup]; simp)]
    refine ⟨?_, ?_, ?_⟩
    · by_cases hproc : s.processing = true
      · rw [if_pos hproc]
      · rw [if_neg hproc]
        cases hqq : s.queue with
        | nil => rfl
        | cons q rest => rfl
    · intro hproc
      rw [if_pos hproc]
      exact ⟨rfl, rfl⟩
    · intro hproc hqq
      rw [if_neg (by rw [hproc]; simp), hqq]
      exact ⟨rfl, rfl, rfl, rfl⟩

/-- C7 witness: enqueue on a fresh queue starts the event at once;
re-enqueueing after it was processed is a no-op. -/
theorem claim_C7_witness :
    (enqueue
        { queue := [], processing := false,
          processedEvents := ["evt-1"], inflight := none, hist := [], pushedList := [] }
        { event_id := some "evt-1", invoice_id := some "inv-1", amount_cents := some 100 } =
      { queue := [], processing := false,
        processedEvents := ["evt-1"], inflight := none, hist := [], pushedList := [] }) ∧
    (enqueue initQueue
        { event_id := some "evt-1", invoice_id := some "inv-1", amount_cents := some 100 }).inflight =
      some { event_id := some "evt-1", invoice_id := some "inv-1", amount_cents := some 100 } := by
  constructor
  · exact (claim_C7
      { queue := [], processing := false,
        processedEvents := ["evt-1"], inflight := none, hist := [], pushedList := [] }
      { event_id := some "evt-1", invoice_id := some "inv-1", amount_cents := some 100 }).1
      (by decide)
  · exact ((claim_C7 initQueue
      { event_id := some "evt-1", invoice_id := some "inv-1", amount_cents := some 100 }).2
      (by decide)).2.2 rfl rfl |>.1

/-- C8: when the in-flight handler invocation fails (throws), the queue
logs and swallows the failure: the processed-set is unchanged (the
identifier is not recorded), the event is not re-queued (no retry: the
backlog-append order is unchanged and the new backlog is the old one's
tail), and processing continues at once with the next backlog entry
when one exists, or goes idle otherwise. -/
theorem claim_C8 (s : QueueState) (e : RawPayload) (h : s.inflight = some e) :
    (complete s false).processedEvents = s.processedEvents ∧
    (complete s false).pushedList = s.pushedList ∧
    (s.queue = [] →
       (complete s false).processing = false ∧ (complete s false).queue = [] ∧
         (complete s false).inflight = none) ∧
    (∀ e2 rest, s.queue = e2 :: rest →
       (complete s false).inflight = some e2 ∧ (complete s false).queue = rest ∧
         (complete s false).processing = true ∧
         (complete s false).hist =
           s.hist ++ [QEntry.finish e false, QEntry.start e2]) := by
  unfold complete startNext
  rw [h]
  simp only [Bool.false_and, if_false, if_neg (by simp : ¬False)]
  refine ⟨?_, ?_, ?_, ?_⟩
  · cases hqq : s.queue with
    | nil => rfl
    | cons q rest => rfl
  · cases hqq : s.queue with
    | nil => rfl
    | cons q rest => rfl
  · intro hqq
    rw [hqq]
    exact ⟨rfl, rfl, rfl⟩
  · intro e2 rest hqq
    rw [hqq]
    exact ⟨rfl, rfl, rfl, by simp⟩

/-- C8 witness: a queue with one in-flight event and one backlog entry;
on handler failure the processed-set is untouched and the backlog entry
starts at once. -/
theorem claim_C8_witness :
    (complete
        { queue := [{ event_id := some "evt-2", invoice_id := some "inv-1",
                      amount_cents := some 200 }],
          processing := true, processedEvents := [],
          inflight := some { event_id := some "evt-1", invoice_id := some "inv-1",
                             amount_cents := some 100 },
          hist := [QEntry.start { event_id := some "evt-1", invoice_id := some "inv-1",
                                  amount_cents := some 100 }],
          pushedList := [{ event_id := some "evt-1", invoice_id := some "inv-1",
                           amount_cents := some 100 },
                         { event_id := some "evt-2", invoice_id := some "inv-1",
                           amount_cents := some 200 }] }
        false).processedEvents = [] ∧
    (complete
        { queue := [{ event_id := some "evt-2", invoice_id := some "inv-1",
                      amount_cents := some 200 }],
          processing := true, processedEvents := [],
          inflight := some { event_id := some "evt-1", invoice_id := some "inv-1",
                             amount_cents := some 100 },
          hist := [QEntry.start { event_id := some "evt-1", invoice_id := some "inv-1",
                                  amount_cents := some 100 }],
          pushedList := [{ event_id := some "evt-1", invoice_id := some "inv-1",
                           amount_cents := some 100 },
                         { event_id := some "evt-2", invoice_id := some "inv-1",
                           amount_cents := some 200 }] }
        false).inflight =
      some { event_id := some "evt-2", invoice_id := some "inv-1",
             amount_cents := some 200 } := by
  have h := claim_C8
    { queue := [{ event_id := some "evt-2", invoice_id := some "inv-1",
                  amount_cents := some 200 }],
      processing := true, processedEvents := [],
      inflight := some { event_id := some "evt-1", invoice_id := some "inv-1",
                         amount_cents := some 100 },
      hist := [QEntry.start { event_id := some "evt-1", invoice_id := some "inv-1",
                              amount_cents := some 100 }],
      pushedList := [{ event_id := some "evt-1", invoice_id := some "inv-1",
                       amount_cents := some 100 },
                     { event_id := some "evt-2", invoice_id := some "inv-1",
                       amount_cents := some 200 }] }
    { event_id := some "evt-1", invoice_id := some "inv-1", amount_cents := some 100 }
    rfl
  exact ⟨h.1, (h.2.2.2 _ _ rfl).1⟩

/-- C10: the processed-set only ever covers events whose handler
completed successfully, so an event identifier that is merely in flight
(not yet completed) does not block a second enqueue: the second copy is
appended to the backlog, and when the in-flight invocation then
completes successfully, the second copy's handler is started even
though the identifier has just been added to the processed-set — the
same identifier is handled twice within one process. -/
theorem claim_C10 (s : QueueState) (e : RawPayload)
    (hdup : s.processedEvents.contains (getEventId e) = false)
    (hproc : s.processing = true) (hinf : s.inflight = some e) (hq : s.queue = []) :
    (enqueue s e).queue = [e] ∧
    startsOf (complete (enqueue s e) true).hist = startsOf s.hist ++ [e] ∧
    (complete (enqueue s e) true).processedEvents =
      s.processedEvents ++ [getEventId e] ∧
    (complete (enqueue s e) true).inflight = some e := by
  have hdup2 : getEventId e ∉ s.processedEvents := by simpa using hdup
  have henq : enqueue s e =
      { s with queue := [e], pushedList := s.pushedList ++ [e] } := by
    simp [enqueue, startNext, hdup2, hproc, hq]
  have hcomp : complete { s with queue := [e], pushedList := s.pushedList ++ [e] } true =
      { queue := [], processing := true,
        processedEvents := s.processedEvents ++ [getEventId e],
        inflight := some e,
        hist := (s.hist ++ [QEntry.finish e true]) ++ [QEntry.start e],
        pushedList := s.pushedList ++ [e] } := by
    simp [complete, startNext, hinf, hdup2]
  rw [henq, hcomp]
  refine ⟨rfl, ?_, rfl, rfl⟩
  rw [startsOf_append, startsOf_append]
  simp [startsOf]

/-- C10 witness: a concrete queue with the event in flight; the second
enqueue of the same event id queues a second copy that is started after
the first completes. -/
theorem claim_C10_witness :
    (enqueue
        { queue := [], processing := true, processedEvents := [],
          inflight := some { event_id := some "evt-1", invoice_id := some "inv-1",
                             amount_cents := some 100 },
          hist := [QEntry.start { event_id := some "evt-1", invoice_id := some "inv-1",
                                  amount_cents := some 100 }],
          pushedList := [{ event_id := some "evt-1", invoice_id := some "inv-1",
                           amount_cents := some 100 }] }
        { event_id := some "evt-1", invoice_id := some "inv-1",
          amount_cents := some 100 }).queue =
      [{ event_id := some "evt-1", invoice_id := some "inv-1", amount_cents := some 100 }] ∧
    startsOf
        (complete
          (enqueue
            { queue := [], processing := true, processedEvents := [],
              inflight := some { event_id := some "evt-1", invoice_id := some "inv-1",
                                 amount_cents := some 100 },
              hist := [QEntry.start { event_id := some "evt-1", invoice_id := some "inv-1",
                                      amount_cents := some 100 }],
              pushedList := [{ event_id := some "evt-1", invoice_id := some "inv-1",
                               amount_cents := some 100 }] }
            { event_id := some "evt-1", invoice_id := some "inv-1",
              amount_cents := some 100 })
          true).hist =
      [{ event_id := some "evt-1", invoice_id := some "inv-1", amount_cents := some 100 },
       { event_id := some "evt-1", invoice_id := some "inv-1", amount_cents := some 100 }] := by
  have h := claim_C10
    { queue := [], processing := true, processedEvents := [],
      inflight := some { event_id := some "evt-1", invoice_id := some "inv-1",
                         amount_cents := some 100 },
      hist := [QEntry.start { event_id := some "evt-1", invoice_id := some "inv-1",
                              amount_cents := some 100 }],
      pushedList := [{ event_id := some "evt-1", invoice_id := some "inv-1",
                       amount_cents := some 100 }] }
    { event_id := some "evt-1", invoice_id := some "inv-1", amount_cents := some 100 }
    rfl rfl rfl rfl
  exact ⟨h.1, by rw [h.2.1]; rfl⟩

end PaymentsWebhook
